import Mathlib

/-!
Verification of the nanobot-web chat client against its specification.

The development shallowly embeds the parts of the TypeScript sources that the
checked properties are about:

* the streaming-reply ingestion pipeline of `src/pages/Chat.tsx` /
  `src/hooks/useChat.ts` (`sendMessage`): SSE-like line parsing, chunk
  buffering, event dispatch, progress upserts, content accumulation, and the
  fallback / apology paths;
* the session store of the session context module (`createSession`,
  `switchSession`, `deleteSession`, the map-based update operations);
* the persistence adapter (`saveSessions` / `loadSessions`).

JavaScript string primitives (`trim`, `startsWith`, `slice`, `split`) are
modelled by structurally recursive Lean functions on the character list of a
`String`, and `JSON.parse` is treated as an abstract parameter
`jp : String → Option Payload` of the pipeline; a concrete restricted parser
`jsonParseFlat` (flat objects with escape-free string members, everything else
rejected) instantiates it on the concrete inputs used below, where it agrees
with `JSON.parse`. Dates are modelled as integer epoch milliseconds, and the
ISO-8601 date codec of the persistence layer is likewise a pair of function
parameters.
-/

namespace NanobotWeb

/-! JavaScript primitives used by the sources. -/

/-- Model of JavaScript string truthiness for an optional string field:
`undefined`, `null` and the empty string are falsy. -/
def truthy : Option String → Bool
  | none => false
  | some s => s ≠ ""

/-- Model of JavaScript `a || b` where `a` is an optional string field and `b`
a string default. -/
def jsOr (a : Option String) (b : String) : String :=
  match a with
  | some s => if s = "" then b else s
  | none => b

/-- Model of JavaScript `a || b` on plain strings: the empty string is falsy. -/
def jsOrStr (a b : String) : String :=
  if a = "" then b else a

/-- Model of JavaScript string coercion applied by `s += x` when `x` is an
optional string: `undefined` coerces to the text "undefined". -/
def jsCoerce : Option String → String
  | some s => s
  | none => "undefined"

/-- Model of JavaScript `String.prototype.trim`. -/
def jsTrim (s : String) : String :=
  String.mk (((s.data.dropWhile Char.isWhitespace).reverse.dropWhile Char.isWhitespace).reverse)

/-- Model of JavaScript `String.prototype.startsWith`. -/
def jsStartsWith (s pre : String) : Bool :=
  pre.data.isPrefixOf s.data

/-- Model of JavaScript `String.prototype.slice(n)` for a nonnegative index. -/
def jsSlice (s : String) (n : Nat) : String :=
  String.mk (s.data.drop n)

/-- Model of JavaScript `Array.prototype.findIndex`, with `none` standing for
the sentinel result `-1`. -/
def findIndex (p : α → Bool) : List α → Option Nat
  | [] => none
  | a :: l => if p a then some 0 else (findIndex p l).map (· + 1)

/-! Data model, from `src/types/chat.ts` and the session context module.
Dates are epoch milliseconds. -/

/-- ToolCall record of `src/types/chat.ts`; `arguments` is modelled as an
association list of JSON-encoded values. -/
structure ToolCall where
  id : String
  name : String
  arguments : List (String × String)
  result : Option String
deriving DecidableEq

/-- Message record of `src/types/chat.ts`. -/
structure Message where
  id : String
  role : String
  content : String
  timestamp : Int
  toolCalls : Option (List ToolCall)
deriving DecidableEq

/-- ProgressStep record built by the `progress` branch of `sendMessage`. The
fields copied from the payload may be `undefined` at runtime, hence `Option`. -/
structure ProgressStep where
  tool : Option String
  file : Option String
  action : Option String
  status : String
  content : Option String
deriving DecidableEq

/-- Fields of a parsed `data:` JSON payload that `sendMessage` reads
(`data.tool`, `data.file`, `data.action`, `data.status`, `data.content`);
a field absent from the JSON object is `none`. -/
structure Payload where
  tool : Option String
  file : Option String
  action : Option String
  status : Option String
  content : Option String
deriving DecidableEq

/-! Streaming pipeline state, from `sendMessage` in `src/pages/Chat.tsx`
(identical dispatch logic in `src/hooks/useChat.ts`). -/

/-- Accumulation state of the stream-consuming loop: the current SSE event
type, the accumulated content buffer (`streamingContentRef.current`), the
progress list (`progressSteps`) and the thinking flag (`isThinking`). -/
structure Acc where
  eventType : String
  content : String
  progress : List ProgressStep
  thinking : Bool
deriving DecidableEq

/-- State at the start of the read loop: `currentEventType = 'message'`,
empty buffer, empty progress list, thinking flag cleared. -/
def initAcc : Acc :=
  { eventType := "message", content := "", progress := [], thinking := false }

/-- New ProgressStep built from a progress payload: status defaults to
"running" via `data.status || 'running'`. -/
def newStepOf (data : Payload) : ProgressStep :=
  { tool := data.tool, file := data.file, action := data.action,
    status := jsOr data.status "running", content := data.content }

/-- Progress upsert of `sendMessage`: `findIndex` on the `(tool, file)` key,
replace in place on a hit, append otherwise. -/
def upsertStep (steps : List ProgressStep) (data : Payload) : List ProgressStep :=
  match findIndex (fun st => st.tool == data.tool && st.file == data.file) steps with
  | some i => steps.set i (newStepOf data)
  | none => steps ++ [newStepOf data]

/-- Dispatch of one parsed `data:` payload under the current event type
(the `switch (currentEventType)` of `sendMessage`). The `error` case only
logs, the `message` case and unknown event types do nothing. -/
def dispatchPayload (s : Acc) (data : Payload) : Acc :=
  if s.eventType = "thinking" then
    { s with thinking := decide (data.status = some "starting" ∨ data.status = some "queued") }
  else if s.eventType = "progress" then
    let s1 :=
      if truthy data.tool ∨ truthy data.file ∨ truthy data.action then
        { s with progress := upsertStep s.progress data }
      else s
    { s1 with content := s1.content ++ jsCoerce data.content }
  else s

/-- Processing of one complete line of the stream (the body of
`for (const line of lines)` in `sendMessage`), with `jp` standing for
`JSON.parse` restricted to the payload fields read by the code (`none` models
a parse exception). -/
def stepLine (jp : String → Option Payload) (s : Acc) (line : String) : Acc :=
  if jsTrim line = "" ∨ jsStartsWith line ":" then s
  else if jsStartsWith line "event:" then
    { s with eventType := jsTrim (jsSlice line 6) }
  else if jsStartsWith line "data:" then
    let dataContent := jsTrim (jsSlice line 5)
    let s1 :=
      match jp dataContent with
      | some data => dispatchPayload s data
      | none => { s with content := s.content ++ dataContent }
    { s1 with eventType := "message" }
  else s

/-- Splitting of a character list at every newline, JavaScript
`buffer.split('\n')` followed by `lines.pop()`: the first component is the
list of complete lines, the second the trailing residue after the last
newline (the popped element). -/
def consLine (c : Char) : List (List Char) × List Char → List (List Char) × List Char
  | ([], r) => ([], c :: r)
  | (l :: ls, r) => ((c :: l) :: ls, r)

/-- Line splitter; see `consLine`. -/
def splitLines : List Char → List (List Char) × List Char
  | [] => ([], [])
  | c :: cs =>
    if c = '\n' then ([] :: (splitLines cs).1, (splitLines cs).2)
    else consLine c (splitLines cs)

/-- State of the chunked reader: the pending partial line (`buffer`) and the
accumulation state. -/
structure PState where
  buffer : String
  acc : Acc
deriving DecidableEq

/-- Reader state at the start of the loop: `buffer = ''`. -/
def initPState : PState :=
  { buffer := "", acc := initAcc }

/-- One iteration of the read loop on a decoded chunk:
`buffer += chunk; lines = buffer.split('\n'); buffer = lines.pop() || '';`
then the per-line processing of every complete line. -/
def stepChunk (jp : String → Option Payload) (ps : PState) (chunk : String) : PState :=
  { buffer := String.mk (splitLines (ps.buffer ++ chunk).data).2,
    acc := ((splitLines (ps.buffer ++ chunk).data).1.map String.mk).foldl (stepLine jp) ps.acc }

/-- Whole read loop over a list of decoded chunks; the residue left in
`buffer` when the stream reports completion is dropped, exactly as in the
source. -/
def runChunks (jp : String → Option Payload) (ps : PState) (chunks : List String) : PState :=
  chunks.foldl (stepChunk jp) ps

/-- Concatenation of all chunks of a stream, for stating chunking
invariance. -/
def concatChunks (cs : List String) : String :=
  cs.foldl (fun a b => a ++ b) ""

/-! Restricted concrete JSON parser used to instantiate `jp` on concrete
inputs. -/

/-- Double-quote character. -/
def quoteChar : Char := Char.ofNat 34

/-- Backslash character. -/
def backslashChar : Char := Char.ofNat 92

/-- Left brace character. -/
def lbraceChar : Char := Char.ofNat 123

/-- Right brace character. -/
def rbraceChar : Char := Char.ofNat 125

/-- Consumes the remainder of an escape-free JSON string literal (the opening
quote already consumed), returning its characters and the rest of the input. -/
def takeStringLit : List Char → Option (List Char × List Char)
  | [] => none
  | c :: cs =>
    if c = quoteChar then some ([], cs)
    else if c = backslashChar then none
    else
      match takeStringLit cs with
      | some (l, rest) => some ((c :: l), rest)
      | none => none

/-- Parses comma-separated `"key":"value"` members with escape-free string
literals; fuelled recursion, fuel bounded by the input length. -/
def takeMembers : Nat → List Char → Option (List (String × String) × List Char)
  | 0, _ => none
  | fuel + 1, cs =>
    match cs with
    | c :: cs1 =>
      if c = quoteChar then
        match takeStringLit cs1 with
        | some (k, c1 :: c2 :: cs2) =>
          if c1 = ':' ∧ c2 = quoteChar then
            match takeStringLit cs2 with
            | some (v, cs3) =>
              match cs3 with
              | ',' :: cs4 =>
                match takeMembers fuel cs4 with
                | some (ms, rest) => some ((String.mk k, String.mk v) :: ms, rest)
                | none => none
              | _ => some ([(String.mk k, String.mk v)], cs3)
            | none => none
          else none
        | _ => none
      else none
    | [] => none

/-- Lookup of a member value with JavaScript duplicate-key semantics (the last
occurrence wins). -/
def lookupLast (ms : List (String × String)) (k : String) : Option String :=
  ms.reverse.lookup k

/-- Payload built from the members of a parsed flat object: exactly the five
fields the pipeline reads, other members ignored. -/
def payloadOfPairs (ms : List (String × String)) : Payload :=
  { tool := lookupLast ms "tool", file := lookupLast ms "file",
    action := lookupLast ms "action", status := lookupLast ms "status",
    content := lookupLast ms "content" }

/-- Restricted model of `JSON.parse` for payload texts: accepts exactly flat
objects whose members are escape-free string literals and rejects everything
else. It agrees with `JSON.parse` on every concrete payload used in this
development (both on the accepted objects and on the rejected non-JSON
texts). -/
def jsonParseFlat (s : String) : Option Payload :=
  match s.data with
  | [] => none
  | c :: cs =>
    if c = lbraceChar then
      match cs with
      | [c2] => if c2 = rbraceChar then some (payloadOfPairs []) else none
      | _ =>
        match takeMembers cs.length cs with
        | some (ms, [c3]) => if c3 = rbraceChar then some (payloadOfPairs ms) else none
        | _ => none
    else none

/-! Request-level model of `sendMessage` in `src/pages/Chat.tsx`
(lines 340 to 530). -/

/-- Request body `{ message, sessionId, agentId }` sent to both endpoints. -/
structure ChatPayload where
  message : String
  sessionId : String
  agentId : String
deriving DecidableEq

/-- One HTTP request issued by `sendMessage`: `POST /api/chat/stream` or the
non-streaming fallback `POST /api/chat`. -/
inductive Request where
  | stream (payload : ChatPayload)
  | chat (payload : ChatPayload)
deriving DecidableEq

/-- Environment-resolved outcome of the streaming request:
`failBeforeBody` covers a network error or a non-2xx status (the code throws
before reading); `noBody` is a 2xx response with a null body (the streaming
block is skipped silently); `consumed` is a stream read to completion;
`failMidStream` is an exception thrown after the given chunks were
processed. -/
inductive StreamOutcome where
  | failBeforeBody
  | noBody
  | consumed (chunks : List String)
  | failMidStream (chunks : List String)
deriving DecidableEq

/-- Environment-resolved outcome of the fallback request: on success the
`response` and `message` fields of its JSON body and the optional
`toolCalls`; `fail` covers a non-2xx status, a network error or a body-parse
error. -/
inductive FallbackOutcome where
  | ok (response : Option String) (message : Option String) (toolCalls : Option (List ToolCall))
  | fail
deriving DecidableEq

/-- Observable result of one `sendMessage` invocation: the requests issued in
order, the contents of the assistant messages appended to the session
transcript, and whether the returned promise rejects. -/
structure SendResult where
  requests : List Request
  appended : List String
  raised : Bool
deriving DecidableEq

/-- Fixed apology text appended when streaming and fallback both fail. -/
def apologyText : String := "Sorry, I encountered an error processing your request."

/-- Placeholder used when the accumulated buffer or fallback reply is empty. -/
def noResponseText : String := "No response"

/-- Assistant content of a successful fallback reply:
`data.response || data.message || 'No response'`. -/
def fallbackContent (r m : Option String) : String :=
  jsOr r (jsOr m noResponseText)

/-- Fallback branch of `sendMessage`: one request to `/api/chat`, then either
the reply-derived assistant message or the fixed apology message. -/
def runFallback (p : ChatPayload) (fo : FallbackOutcome) : List Request × List String :=
  match fo with
  | .ok r m _ => ([Request.chat p], [fallbackContent r m])
  | .fail => ([Request.chat p], [apologyText])

/-- True exactly when the streaming attempt lands in the catch block of
`sendMessage`. -/
def streamFailed : StreamOutcome → Bool
  | .failBeforeBody => true
  | .failMidStream _ => true
  | _ => false

/-- Request-level model of `sendMessage` (Chat page variant, which also sends
`agentId`). The guard on an empty trimmed input and on the busy flag is the
early return at the top of the function; the user-message append, naming and
timer side effects are not part of the modelled observables. -/
def sendMessage (isLoading : Bool) (content sessionId agentId : String)
    (so : StreamOutcome) (fo : FallbackOutcome) (jp : String → Option Payload) : SendResult :=
  if jsTrim content = "" ∨ isLoading then
    { requests := [], appended := [], raised := false }
  else
    let payload : ChatPayload := { message := jsTrim content, sessionId := sessionId, agentId := agentId }
    match so with
    | .noBody =>
      { requests := [Request.stream payload], appended := [], raised := false }
    | .consumed chunks =>
      let final := (runChunks jp initPState chunks).acc
      { requests := [Request.stream payload],
        appended := [jsOrStr final.content noResponseText],
        raised := false }
    | .failBeforeBody =>
      let fb := runFallback payload fo
      { requests := Request.stream payload :: fb.1, appended := fb.2, raised := false }
    | .failMidStream _ =>
      let fb := runFallback payload fo
      { requests := Request.stream payload :: fb.1, appended := fb.2, raised := false }

/-! Session store, from the session context module (`src/unnamed/part_002`). -/

/-- Session record. -/
structure Session where
  id : String
  name : String
  agentId : String
  messages : List Message
  createdAt : Int
  updatedAt : Int
deriving DecidableEq

/-- Fresh empty session built by `createEmptySession`; `id` stands for the
generated identifier and `now` for `new Date()`. -/
def createEmptySession (id : String) (now : Int) (agentId : String) : Session :=
  { id := id, name := "New conversation", agentId := agentId,
    messages := [], createdAt := now, updatedAt := now }

/-- Store state: the session collection and the active-session pointer
(`activeSessionId`, `null` before initialisation). -/
structure SessionStore where
  sessions : List Session
  activeId : Option String
deriving DecidableEq

/-- Truncation of a first user message into a session name:
`content.slice(0, 30) + (content.length > 30 ? '...' : '')`. -/
def truncateName (content : String) : String :=
  String.mk (content.data.take 30) ++ (if content.data.length > 30 then "..." else "")

/-- Model of `createSession`: prepends a fresh empty session and makes it
active. -/
def createSession (st : SessionStore) (freshId : String) (now : Int) (agentId : String) : SessionStore :=
  let newSession := createEmptySession freshId now agentId
  { sessions := newSession :: st.sessions, activeId := some newSession.id }

/-- Model of `switchSession`: sets the active pointer unconditionally. -/
def switchSession (st : SessionStore) (sessionId : String) : SessionStore :=
  { st with activeId := some sessionId }

/-- Model of `deleteSession`: filters the session out; if the collection
would become empty a fresh empty session replaces it and becomes active; if
the deleted session was active the pointer moves to the first remaining
session. -/
def deleteSession (st : SessionStore) (sessionId : String) (freshId : String) (now : Int) : SessionStore :=
  match st.sessions.filter (fun s => s.id != sessionId) with
  | [] =>
    let newSession := createEmptySession freshId now "default"
    { sessions := [newSession], activeId := some newSession.id }
  | f :: rest =>
    if st.activeId = some sessionId then { sessions := f :: rest, activeId := some f.id }
    else { sessions := f :: rest, activeId := st.activeId }

/-- Shared shape of the map-based update operations. -/
def mapSessions (st : SessionStore) (f : Session → Session) : SessionStore :=
  { st with sessions := st.sessions.map f }

/-- Model of `updateSessionName`. -/
def updateSessionName (st : SessionStore) (sessionId name : String) (now : Int) : SessionStore :=
  mapSessions st (fun s => if s.id = sessionId then { s with name := name, updatedAt := now } else s)

/-- Model of `updateSessionAgent`. -/
def updateSessionAgent (st : SessionStore) (sessionId agentId : String) (now : Int) : SessionStore :=
  mapSessions st (fun s => if s.id = sessionId then { s with agentId := agentId, updatedAt := now } else s)

/-- Model of `addMessageToSession`, including the auto-naming of a session on
its first user message. -/
def addMessageToSession (st : SessionStore) (sessionId : String) (msg : Message) (now : Int) : SessionStore :=
  mapSessions st (fun s =>
    if s.id = sessionId then
      let name := if s.messages.length = 0 ∧ msg.role = "user" then truncateName msg.content else s.name
      { s with name := name, messages := s.messages ++ [msg], updatedAt := now }
    else s)

/-- Model of `setSessionMessages`. -/
def setSessionMessages (st : SessionStore) (sessionId : String) (msgs : List Message) (now : Int) : SessionStore :=
  mapSessions st (fun s => if s.id = sessionId then { s with messages := msgs, updatedAt := now } else s)

/-- Model of `clearSessionMessages`. -/
def clearSessionMessages (st : SessionStore) (sessionId : String) (now : Int) : SessionStore :=
  mapSessions st (fun s => if s.id = sessionId then { s with messages := [], updatedAt := now } else s)

/-- One session-store operation with its environment-supplied fresh
identifiers and timestamps. -/
inductive StoreOp where
  | create (freshId : String) (now : Int) (agentId : String)
  | switchTo (sessionId : String)
  | delete (sessionId : String) (freshId : String) (now : Int)
  | updateName (sessionId name : String) (now : Int)
  | updateAgent (sessionId agentId : String) (now : Int)
  | addMessage (sessionId : String) (msg : Message) (now : Int)
  | setMessages (sessionId : String) (msgs : List Message) (now : Int)
  | clearMessages (sessionId : String) (now : Int)
deriving DecidableEq

/-- Interpretation of a store operation. -/
def applyOp (st : SessionStore) : StoreOp → SessionStore
  | .create freshId now agentId => createSession st freshId now agentId
  | .switchTo sessionId => switchSession st sessionId
  | .delete sessionId freshId now => deleteSession st sessionId freshId now
  | .updateName sessionId name now => updateSessionName st sessionId name now
  | .updateAgent sessionId agentId now => updateSessionAgent st sessionId agentId now
  | .addMessage sessionId msg now => addMessageToSession st sessionId msg now
  | .setMessages sessionId msgs now => setSessionMessages st sessionId msgs now
  | .clearMessages sessionId now => clearSessionMessages st sessionId now

/-- Validity of the active pointer: it references a session present in the
collection. -/
def activeValid (st : SessionStore) : Prop :=
  ∃ s ∈ st.sessions, some s.id = st.activeId

/-- Side condition under which the pointer invariant is preserved: switching
only to identifiers present in the collection. -/
def opOk (st : SessionStore) : StoreOp → Prop
  | .switchTo sessionId => ∃ s ∈ st.sessions, s.id = sessionId
  | _ => True

/-! Persistence adapter, `saveSessions` / `loadSessions` of the session
context module. The key-value surface stores the JSON document structurally;
`toISO` and `parseISO` stand for `Date.prototype.toISOString` (applied by
`JSON.stringify`) and `new Date(text)`. -/

/-- Serialized message: the timestamp is ISO text. -/
structure MessageJson where
  id : String
  role : String
  content : String
  timestamp : String
  toolCalls : Option (List ToolCall)
deriving DecidableEq

/-- Serialized session: date fields are ISO text; `messages` is optional on
load (`session.messages?.map(...) || []`). -/
structure SessionJson where
  id : String
  name : String
  agentId : String
  messages : Option (List MessageJson)
  createdAt : String
  updatedAt : String
deriving DecidableEq

/-- Serialization of one message by `JSON.stringify`. -/
def saveMessage (toISO : Int → String) (m : Message) : MessageJson :=
  { id := m.id, role := m.role, content := m.content,
    timestamp := toISO m.timestamp, toolCalls := m.toolCalls }

/-- Serialization of one session by `JSON.stringify`. -/
def saveSessionJ (toISO : Int → String) (s : Session) : SessionJson :=
  { id := s.id, name := s.name, agentId := s.agentId,
    messages := some (s.messages.map (saveMessage toISO)),
    createdAt := toISO s.createdAt, updatedAt := toISO s.updatedAt }

/-- Model of `saveSessions`: the JSON document written to the key-value
store. -/
def saveSessions (toISO : Int → String) (sessions : List Session) : List SessionJson :=
  sessions.map (saveSessionJ toISO)

/-- Reconstruction of one message on load: `timestamp: new Date(msg.timestamp)`,
the other fields spread unchanged. -/
def loadMessage (parseISO : String → Int) (mj : MessageJson) : Message :=
  { id := mj.id, role := mj.role, content := mj.content,
    timestamp := parseISO mj.timestamp, toolCalls := mj.toolCalls }

/-- Reconstruction of one session on load: date fields rebuilt from ISO text,
`session.messages?.map(...) || []` for the message list. -/
def loadSessionJ (parseISO : String → Int) (sj : SessionJson) : Session :=
  { id := sj.id, name := sj.name, agentId := sj.agentId,
    createdAt := parseISO sj.createdAt, updatedAt := parseISO sj.updatedAt,
    messages := (sj.messages.map (fun ms => ms.map (loadMessage parseISO))).getD [] }

/-- Model of `loadSessions`: `none` stands for an absent or unparseable
stored value (the catch branch), in which case the documented default `[]` is
returned; otherwise every session is reconstructed with date values rebuilt
from their ISO text. -/
def loadSessions (parseISO : String → Int) (stored : Option (List SessionJson)) : List Session :=
  match stored with
  | none => []
  | some parsed => parsed.map (loadSessionJ parseISO)

/-- Date values occurring in a session, for stating the codec assumption of
the round-trip law. -/
def sessionDates (s : Session) : List Int :=
  s.createdAt :: s.updatedAt :: s.messages.map (fun m => m.timestamp)

/-! Auxiliary definitions for the statements and proofs below. -/

/-- Continuation of a pending residue into the line split of a following
chunk: the residue is prepended to the first line of the continuation, or to
its residue when the continuation has no complete line. -/
def glueLines (r : List Char) : List (List Char) × List Char → List (List Char) × List Char
  | ([], ry) => ([], r ++ ry)
  | (m :: ms, ry) => ((r ++ m) :: ms, ry)

/-- De-duplication keys of a progress list. -/
def progressKeys (l : List ProgressStep) : List (Option String × Option String) :=
  l.map (fun st => (st.tool, st.file))

/-! Concrete inputs used by witnesses and counterexamples. All JSON payloads
below are inputs on which `jsonParseFlat` agrees with `JSON.parse`. -/

/-- Stream consisting of one progress frame whose payload has no `content`
member. -/
def framesC1 : List String :=
  ["event:progress\ndata:\x7b\"tool\":\"grep\",\"file\":\"a.py\",\"status\":\"running\"\x7d\n"]

/-- Stream with two progress frames sharing the key (grep, a.py), statuses
running then completed, contents "x" then "y". -/
def framesC2 : List String :=
  ["event:progress\ndata:\x7b\"tool\":\"grep\",\"file\":\"a.py\",\"status\":\"running\",\"content\":\"x\"\x7d\nevent:progress\ndata:\x7b\"tool\":\"grep\",\"file\":\"a.py\",\"status\":\"completed\",\"content\":\"y\"\x7d\n"]

/-- Stream with one progress frame whose key fields are present but empty
strings. -/
def framesC2bad : List String :=
  ["event:progress\ndata:\x7b\"tool\":\"\",\"file\":\"\",\"content\":\"b\"\x7d\n"]

/-- A payload text split across two chunks, the example of the
specification. -/
def chunksC3 : List String :=
  ["data:\x7b\"content\":\"ab", "c\"\x7d\n"]

/-- Stream accumulating the content "abc" before a mid-stream failure. -/
def chunksC6 : List String :=
  ["event:progress\ndata:\x7b\"content\":\"abc\"\x7d\n"]

/-- Lines preceding an interleaved error frame. -/
def ls1C6 : List String := ["event:progress", "data:\x7b\"content\":\"ab\"\x7d"]

/-- Lines following an interleaved error frame. -/
def ls2C6 : List String := ["event:progress", "data:\x7b\"content\":\"c\"\x7d"]

/-- Data line of the interleaved error frame. -/
def dlineC6 : String := "data:\x7b\"content\":\"x\"\x7d"

/-- Payload of `dlineC6`. -/
def payC6 : Payload :=
  { tool := none, file := none, action := none, status := none, content := some "x" }

/-- Store holding a single session with a valid active pointer. -/
def storeC7 : SessionStore :=
  { sessions := [createEmptySession "s0" 0 "default"], activeId := some "s0" }

/-- Progress payload with key (grep, a.py) and no status. -/
def payloadW : Payload :=
  { tool := some "grep", file := some "a.py", action := none, status := none, content := some "x" }

/-- Accumulation state whose current event type is `progress`. -/
def accW : Acc :=
  { eventType := "progress", content := "", progress := [], thinking := false }

/-- Progress payload carrying only content, no key fields and no status. -/
def payloadKeyless : Payload :=
  { tool := none, file := none, action := none, status := none, content := some "b" }

/-- Demonstration date codec used by the round-trip witness: it satisfies the
codec assumption on the nonnegative dates of the witness session. -/
def demoISO (d : Int) : String := String.mk (List.replicate d.toNat 'x')

/-- Inverse of `demoISO` on nonnegative dates. -/
def demoParse (s : String) : Int := Int.ofNat s.data.length

/-- Concrete session for the round-trip witness. -/
def sessionW : Session :=
  { id := "s1", name := "n", agentId := "default",
    messages := [{ id := "m1", role := "user", content := "hi", timestamp := 5, toolCalls := none }],
    createdAt := 3, updatedAt := 4 }

/-! Theorems. First, the algebra of the line splitter and the chunked
reader. -/

theorem splitLines_append (x y : List Char) :
    splitLines (x ++ y) =
      ((splitLines x).1 ++ (glueLines (splitLines x).2 (splitLines y)).1,
       (glueLines (splitLines x).2 (splitLines y)).2) := by
  induction x with
  | nil =>
    simp only [List.nil_append, splitLines]
    rcases hy : splitLines y with ⟨ly, ry⟩
    cases ly <;> simp [glueLines]
  | cons c cs ih =>
    simp only [List.cons_append, splitLines, List.append_eq]
    by_cases hc : c = '\n'
    · rw [if_pos hc, if_pos hc, ih]
      simp
    · rw [if_neg hc, if_neg hc, ih]
      rcases h1 : splitLines cs with ⟨lcs, rcs⟩
      cases lcs with
      | cons l ls => simp [consLine]
      | nil =>
        rcases h2 : splitLines y with ⟨ly, ry⟩
        cases ly <;> simp [consLine, glueLines]

theorem splitLines_residue (z : List Char) :
    splitLines ((splitLines z).2) = ([], (splitLines z).2) := by
  induction z with
  | nil => rfl
  | cons c cs ih =>
    simp only [splitLines]
    by_cases hc : c = '\n'
    · rw [if_pos hc]
      exact ih
    · rw [if_neg hc]
      rcases h1 : splitLines cs with ⟨lcs, rcs⟩
      rw [h1] at ih
      simp only at ih
      cases lcs with
      | cons l ls => simpa [consLine] using ih
      | nil =>
        simp only [consLine]
        simp only [splitLines, if_neg hc]
        rw [ih]
        simp [consLine]

theorem splitLines_residue_append (z bb : List Char) :
    splitLines ((splitLines z).2 ++ bb) = glueLines (splitLines z).2 (splitLines bb) := by
  rw [splitLines_append ((splitLines z).2) bb, splitLines_residue]
  simp

theorem stepChunk_assoc (jp : String → Option Payload) (ps : PState) (a b : String) :
    stepChunk jp (stepChunk jp ps a) b = stepChunk jp ps (a ++ b) := by
  have hmkd : ∀ l : List Char, (String.mk l).data = l := fun l => rfl
  simp only [stepChunk, String.data_append, hmkd]
  rw [← List.append_assoc]
  rw [splitLines_residue_append (ps.buffer.data ++ a.data) b.data,
      splitLines_append (ps.buffer.data ++ a.data) b.data]
  simp [List.foldl_append]

theorem strFoldlAppend :
    ∀ (cs : List String) (a b : String),
      a ++ List.foldl (fun x y => x ++ y) b cs = List.foldl (fun x y => x ++ y) (a ++ b) cs := by
  intro cs
  induction cs with
  | nil => intro a b; rfl
  | cons c cs ih =>
    intro a b
    simp only [List.foldl_cons]
    rw [ih, String.append_assoc]

theorem runChunks_cons_concat (jp : String → Option Payload) :
    ∀ (cs : List String) (ps : PState) (a : String),
      runChunks jp ps (a :: cs) = stepChunk jp ps (List.foldl (fun x y => x ++ y) a cs) := by
  intro cs
  induction cs with
  | nil => intro ps a; rfl
  | cons c cs ih =>
    intro ps a
    have h1 : runChunks jp ps (a :: c :: cs) = runChunks jp (stepChunk jp ps a) (c :: cs) := rfl
    rw [h1, ih, stepChunk_assoc]
    rw [List.foldl_cons, ← strFoldlAppend]

/-- C3: chunk boundaries are unobservable. For every nonempty list of decoded
chunks, running the read loop of `sendMessage` over the chunks one by one
yields exactly the same final state (accumulated content buffer, progress
list, thinking flag, and pending line buffer) as delivering their whole
concatenation in a single chunk: a trailing incomplete line is kept in
`buffer` and prepended to the next chunk before re-splitting. Quantified over
an arbitrary payload parser standing for `JSON.parse`. -/
theorem chunking_unobservable (jp : String → Option Payload) (cs : List String) (h : cs ≠ []) :
    runChunks jp initPState cs = runChunks jp initPState [concatChunks cs] := by
  match cs, h with
  | a :: cs, _ =>
    rw [runChunks_cons_concat jp cs initPState a]
    have h2 : runChunks jp initPState [concatChunks (a :: cs)] =
        stepChunk jp initPState (concatChunks (a :: cs)) := rfl
    rw [h2]
    have h3 : concatChunks (a :: cs) = List.foldl (fun x y => x ++ y) a cs := by
      simp only [concatChunks, List.foldl_cons]
      rw [String.empty_append]
    rw [h3]

/-- Witness for C3: the buffered-partial-line example of the specification,
the payload `data:{"content":"abc"}` delivered split across two chunks. -/
theorem chunking_unobservable_witness :
    chunksC3 ≠ ([] : List String) ∧
      runChunks jsonParseFlat initPState chunksC3 =
        runChunks jsonParseFlat initPState [concatChunks chunksC3] :=
  ⟨by decide, chunking_unobservable jsonParseFlat chunksC3 (by decide)⟩

/-- C8: a `data:` line whose payload fails JSON parsing appends that payload
verbatim. The payload of a `data:` line is the text after `data:` with
surrounding whitespace trimmed (`line.slice(5).trim()`, the same text handed
to `JSON.parse`); when parsing fails, exactly this text is appended unchanged
to the running content buffer, and nothing else in the state changes except
the event-type reset. -/
theorem nonjson_payload_appended_verbatim (jp : String → Option Payload) (s : Acc) (line : String)
    (hblank : ¬ jsTrim line = "") (hcomment : jsStartsWith line ":" = false)
    (hevent : jsStartsWith line "event:" = false) (hdata : jsStartsWith line "data:" = true)
    (hparse : jp (jsTrim (jsSlice line 5)) = none) :
    stepLine jp s line =
      { s with content := s.content ++ jsTrim (jsSlice line 5), eventType := "message" } := by
  have h1 : ¬ (jsTrim line = "" ∨ jsStartsWith line ":" = true) := by simp [hblank, hcomment]
  have h2 : ¬ (jsStartsWith line "event:" = true) := by simp [hevent]
  rw [stepLine, if_neg h1, if_neg h2, if_pos hdata]
  simp [hparse]

/-- Witness for C8 at the line `data:hello world`, whose payload is not
JSON. -/
theorem nonjson_payload_appended_verbatim_witness :
    (¬ jsTrim "data:hello world" = "") ∧
      jsonParseFlat (jsTrim (jsSlice "data:hello world" 5)) = none ∧
      stepLine jsonParseFlat initAcc "data:hello world" =
        { initAcc with
            content := initAcc.content ++ jsTrim (jsSlice "data:hello world" 5),
            eventType := "message" } :=
  ⟨by decide, by decide,
    nonjson_payload_appended_verbatim jsonParseFlat initAcc "data:hello world"
      (by decide) (by decide) (by decide) (by decide) (by decide)⟩

/-- C1, evaluation at the failing input (code bug): a `progress` frame whose
payload has no `content` member makes `streamingContentRef.current += data.content`
append the JavaScript string coercion of `undefined`, so the accumulated
buffer ends up as the text "undefined" instead of staying empty. -/
theorem progress_missing_content_appends_undefined :
    (runChunks jsonParseFlat initPState framesC1).acc.content = "undefined" ∧
      ¬ (runChunks jsonParseFlat initPState framesC1).acc.content = "" :=
  ⟨by decide, by decide⟩

theorem findIndex_eq_none {p : α → Bool} :
    ∀ {l : List α}, findIndex p l = none → ∀ x ∈ l, p x = false := by
  intro l
  induction l with
  | nil => intro _ x hx; cases hx
  | cons a l ih =>
    intro h x hx
    by_cases hpa : p a
    · rw [findIndex, if_pos hpa] at h
      cases h
    · rw [findIndex, if_neg hpa] at h
      have h2 : findIndex p l = none := by
        cases hfi : findIndex p l with
        | none => rfl
        | some i => rw [hfi] at h; cases h
      rcases List.mem_cons.mp hx with hx | hx
      · subst hx
        exact Bool.eq_false_iff.mpr hpa
      · exact ih h2 x hx

theorem findIndex_eq_some {p : α → Bool} :
    ∀ {l : List α} {i : Nat}, findIndex p l = some i → ∃ x, l.get? i = some x ∧ p x = true := by
  intro l
  induction l with
  | nil => intro i h; cases h
  | cons a l ih =>
    intro i h
    by_cases hpa : p a
    · rw [findIndex, if_pos hpa] at h
      cases h
      exact ⟨a, rfl, hpa⟩
    · rw [findIndex, if_neg hpa] at h
      rcases Option.map_eq_some'.mp h with ⟨j, hj, hi⟩
      rcases ih hj with ⟨x, hx, hpx⟩
      exact ⟨x, by rw [← hi]; simpa using hx, hpx⟩

theorem set_get?_self : ∀ (l : List α) (i : Nat) (a : α), l.get? i = some a → l.set i a = l := by
  intro l
  induction l with
  | nil => intro i a h; cases h
  | cons x l ih =>
    intro i a h
    cases i with
    | zero =>
      simp only [List.get?] at h
      cases h
      rfl
    | succ j =>
      simp only [List.get?] at h
      simp [List.set, ih j a h]

theorem upsert_keys_nodup (steps : List ProgressStep) (data : Payload)
    (h : (progressKeys steps).Nodup) : (progressKeys (upsertStep steps data)).Nodup := by
  rw [upsertStep]
  cases hfi : findIndex (fun st => st.tool == data.tool && st.file == data.file) steps with
  | none =>
    have hall := findIndex_eq_none hfi
    simp only [progressKeys, List.map_append, List.map_cons, List.map_nil]
    rw [List.nodup_append]
    refine ⟨h, List.nodup_singleton _, ?_⟩
    intro k hk hk2
    rcases List.mem_map.mp hk with ⟨st, hst, hkey⟩
    have hkey2 : k = ((newStepOf data).tool, (newStepOf data).file) := by
      simpa using hk2
    have hne := hall st hst
    rw [hkey2] at hkey
    simp only [newStepOf] at hkey
    have : (st.tool == data.tool && st.file == data.file) = true := by
      have h1 : st.tool = data.tool := congrArg Prod.fst hkey
      have h2 : st.file = data.file := congrArg Prod.snd hkey
      simp [h1, h2]
    rw [this] at hne
    cases hne
  | some i =>
    rcases findIndex_eq_some hfi with ⟨st, hget, hp⟩
    have hp2 : st.tool = data.tool ∧ st.file = data.file := by
      simpa [Bool.and_eq_true, beq_iff_eq] using hp
    have h1 : progressKeys (steps.set i (newStepOf data)) =
        (progressKeys steps).set i ((newStepOf data).tool, (newStepOf data).file) := by
      simp [progressKeys, List.map_set]
    have h2 : (progressKeys steps).get? i = some ((newStepOf data).tool, (newStepOf data).file) := by
      simp only [progressKeys, List.get?_map, hget, Option.map_some']
      simp [newStepOf, hp2.1, hp2.2]
    rw [h1, set_get?_self _ _ _ h2]
    exact h

theorem dispatchPayload_progress_cases (s : Acc) (data : Payload) :
    (dispatchPayload s data).progress = s.progress ∨
      (dispatchPayload s data).progress = upsertStep s.progress data := by
  rw [dispatchPayload]
  by_cases h1 : s.eventType = "thinking"
  · rw [if_pos h1]
    exact Or.inl rfl
  · rw [if_neg h1]
    by_cases h2 : s.eventType = "progress"
    · rw [if_pos h2]
      by_cases h3 : truthy data.tool ∨ truthy data.file ∨ truthy data.action
      · rw [if_pos h3]
        exact Or.inr rfl
      · rw [if_neg h3]
        exact Or.inl rfl
    · rw [if_neg h2]
      exact Or.inl rfl

theorem stepLine_keys_nodup (jp : String → Option Payload) (s : Acc) (line : String)
    (h : (progressKeys s.progress).Nodup) :
    (progressKeys (stepLine jp s line).progress).Nodup := by
  rw [stepLine]
  by_cases h1 : jsTrim line = "" ∨ jsStartsWith line ":" = true
  · rw [if_pos h1]; exact h
  · rw [if_neg h1]
    by_cases h2 : jsStartsWith line "event:" = true
    · rw [if_pos h2]; exact h
    · rw [if_neg h2]
      by_cases h3 : jsStartsWith line "data:" = true
      · rw [if_pos h3]
        cases hp : jp (jsTrim (jsSlice line 5)) with
        | none =>
          simp only [hp]
          simpa using h
        | some data =>
          simp only [hp]
          rcases dispatchPayload_progress_cases s data with hc | hc
          · simpa [hc] using h
          · simpa [hc] using upsert_keys_nodup s.progress data h
      · rw [if_neg h3]; exact h

theorem foldl_stepLine_keys_nodup (jp : String → Option Payload) :
    ∀ (lines : List String) (s : Acc), (progressKeys s.progress).Nodup →
      (progressKeys (lines.foldl (stepLine jp) s).progress).Nodup := by
  intro lines
  induction lines with
  | nil => intro s h; exact h
  | cons line lines ih =>
    intro s h
    exact ih (stepLine jp s line) (stepLine_keys_nodup jp s line h)

theorem runChunks_keys_nodup (jp : String → Option Payload) :
    ∀ (chunks : List String) (ps : PState), (progressKeys ps.acc.progress).Nodup →
      (progressKeys (runChunks jp ps chunks).acc.progress).Nodup := by
  intro chunks
  induction chunks with
  | nil => intro ps h; exact h
  | cons c chunks ih =>
    intro ps h
    exact ih (stepChunk jp ps c) (foldl_stepLine_keys_nodup jp _ ps.acc h)

/-- C2 counterexample: the claim fails as universally stated. The progress
frame `data:{"tool":"","file":"","content":"b"}` carries the fresh key
("", ""), yet the progress list stays empty because the upsert only runs when
`data.tool || data.file || data.action` is truthy and empty strings are falsy
in JavaScript; the content is still appended, showing the frame was processed
as a progress event. -/
theorem progress_empty_key_not_appended :
    (runChunks jsonParseFlat initPState framesC2bad).acc.progress = [] ∧
      (runChunks jsonParseFlat initPState framesC2bad).acc.content = "b" :=
  ⟨by decide, by decide⟩

/-- C2 amended: the progress list holds at most one entry per `(tool, file)`
key, and for a progress event carrying at least one truthy `tool`, `file` or
`action` field, a key already present is replaced in place at its original
index while a fresh key appends a new entry; an event with none of these
fields truthy leaves the list unchanged. In particular the two-frame
(grep, a.py) sequence of the specification yields exactly one entry, with
status completed and accumulated content "xy". -/
theorem progress_upsert_keyed (jp : String → Option Payload) :
    (∀ cs : List String, (progressKeys (runChunks jp initPState cs).acc.progress).Nodup)
    ∧ (∀ (s : Acc) (data : Payload), s.eventType = "progress" →
        (truthy data.tool ∨ truthy data.file ∨ truthy data.action) →
        (dispatchPayload s data).progress = upsertStep s.progress data)
    ∧ (∀ (s : Acc) (data : Payload), s.eventType = "progress" →
        ¬ (truthy data.tool ∨ truthy data.file ∨ truthy data.action) →
        (dispatchPayload s data).progress = s.progress)
    ∧ (∀ (steps : List ProgressStep) (data : Payload) (i : Nat),
        findIndex (fun st => st.tool == data.tool && st.file == data.file) steps = some i →
        upsertStep steps data = steps.set i (newStepOf data))
    ∧ (∀ (steps : List ProgressStep) (data : Payload),
        findIndex (fun st => st.tool == data.tool && st.file == data.file) steps = none →
        upsertStep steps data = steps ++ [newStepOf data])
    ∧ ((runChunks jsonParseFlat initPState framesC2).acc.progress =
          [{ tool := some "grep", file := some "a.py", action := none,
             status := "completed", content := some "y" }]
        ∧ (runChunks jsonParseFlat initPState framesC2).acc.content = "xy") := by
  refine ⟨?_, ?_, ?_, ?_, ?_, by decide, by decide⟩
  · intro cs
    exact runChunks_keys_nodup jp cs initPState (by simp [initPState, initAcc, progressKeys])
  · intro s data hev hguard
    rw [dispatchPayload, if_neg (by rw [hev]; decide), if_pos hev, if_pos hguard]
  · intro s data hev hguard
    rw [dispatchPayload, if_neg (by rw [hev]; decide), if_pos hev, if_neg hguard]
  · intro steps data i hfi
    rw [upsertStep, hfi]
  · intro steps data hfi
    rw [upsertStep, hfi]

/-- Witness for C2 at a concrete progress dispatch and a concrete append. -/
theorem progress_upsert_keyed_witness :
    (dispatchPayload accW payloadW).progress = upsertStep accW.progress payloadW ∧
      upsertStep ([] : List ProgressStep) payloadW = [] ++ [newStepOf payloadW] :=
  ⟨(progress_upsert_keyed jsonParseFlat).2.1 accW payloadW (by decide) (by decide),
    (progress_upsert_keyed jsonParseFlat).2.2.2.2.1 [] payloadW (by decide)⟩

/-- C10: a progress payload with none of the `tool`, `file`, `action` members
leaves the progress list untouched while its content is still appended to the
running buffer (with the JavaScript coercion of a missing `content`), and a
payload carrying a truthy key field but no `status` member is upserted as a
step whose status is "running". -/
theorem progress_keyless_and_status_default (s : Acc) (data : Payload)
    (hev : s.eventType = "progress") :
    ((data.tool = none ∧ data.file = none ∧ data.action = none) →
        (dispatchPayload s data).progress = s.progress ∧
          (dispatchPayload s data).content = s.content ++ jsCoerce data.content)
    ∧ (data.status = none →
        (newStepOf data).status = "running"
        ∧ ((truthy data.tool ∨ truthy data.file ∨ truthy data.action) →
            (dispatchPayload s data).progress = upsertStep s.progress data)) := by
  constructor
  · rintro ⟨ht, hf, ha⟩
    have hguard : ¬ (truthy data.tool ∨ truthy data.file ∨ truthy data.action) := by
      simp [ht, hf, ha, truthy]
    rw [dispatchPayload, if_neg (by rw [hev]; decide), if_pos hev, if_neg hguard]
    exact ⟨rfl, rfl⟩
  · intro hst
    refine ⟨by simp [newStepOf, hst, jsOr], ?_⟩
    intro hguard
    rw [dispatchPayload, if_neg (by rw [hev]; decide), if_pos hev, if_pos hguard]

/-- Witness for C10 at a keyless payload and at a status-free keyed
payload. -/
theorem progress_keyless_and_status_default_witness :
    (dispatchPayload accW payloadKeyless).progress = accW.progress
    ∧ (newStepOf payloadW).status = "running" :=
  ⟨((progress_keyless_and_status_default accW payloadKeyless (by decide)).1 (by decide)).1,
    ((progress_keyless_and_status_default accW payloadW (by decide)).2 (by decide)).1⟩

/-- C4: when the streaming request fails (non-2xx status, network error, or
an exception while consuming the stream), `sendMessage` issues exactly one
request to the non-streaming fallback endpoint `/api/chat` — never two — and
its `{ message, sessionId, agentId }` payload is identical to the payload of
the failed streaming request, both built from the same trimmed input. -/
theorem fallback_exactly_once (isLoading : Bool) (content sessionId agentId : String)
    (so : StreamOutcome) (fo : FallbackOutcome) (jp : String → Option Payload)
    (hguard : ¬ (jsTrim content = "" ∨ isLoading = true)) (hfail : streamFailed so = true) :
    (sendMessage isLoading content sessionId agentId so fo jp).requests =
      [Request.stream { message := jsTrim content, sessionId := sessionId, agentId := agentId },
       Request.chat { message := jsTrim content, sessionId := sessionId, agentId := agentId }] := by
  rw [sendMessage, if_neg hguard]
  cases so with
  | failBeforeBody => cases fo <;> rfl
  | failMidStream chunks => cases fo <;> rfl
  | noBody => exact Bool.noConfusion hfail
  | consumed chunks => exact Bool.noConfusion hfail

/-- Witness for C4: an HTTP 500 streaming response (a throw before the body
is read) followed by a failing fallback. -/
theorem fallback_exactly_once_witness :
    (¬ (jsTrim "hi" = "" ∨ false = true)) ∧ streamFailed StreamOutcome.failBeforeBody = true ∧
      (sendMessage false "hi" "s1" "default" StreamOutcome.failBeforeBody
          FallbackOutcome.fail jsonParseFlat).requests =
        [Request.stream { message := jsTrim "hi", sessionId := "s1", agentId := "default" },
         Request.chat { message := jsTrim "hi", sessionId := "s1", agentId := "default" }] :=
  ⟨by decide, by decide,
    fallback_exactly_once false "hi" "s1" "default" StreamOutcome.failBeforeBody
      FallbackOutcome.fail jsonParseFlat (by decide) (by decide)⟩

/-- C5: when the streaming request and the fallback request both fail,
`sendMessage` resolves without raising and appends exactly one assistant
message to the session transcript, whose content is the fixed apology
text. -/
theorem both_fail_apology_once (isLoading : Bool) (content sessionId agentId : String)
    (so : StreamOutcome) (jp : String → Option Payload)
    (hguard : ¬ (jsTrim content = "" ∨ isLoading = true)) (hfail : streamFailed so = true) :
    (sendMessage isLoading content sessionId agentId so FallbackOutcome.fail jp).appended =
        [apologyText]
    ∧ (sendMessage isLoading content sessionId agentId so FallbackOutcome.fail jp).raised = false := by
  rw [sendMessage, if_neg hguard]
  cases so with
  | failBeforeBody => exact ⟨rfl, rfl⟩
  | failMidStream chunks => exact ⟨rfl, rfl⟩
  | noBody => exact Bool.noConfusion hfail
  | consumed chunks => exact Bool.noConfusion hfail

/-- Witness for C5 at a concrete doubly-failing send. -/
theorem both_fail_apology_once_witness :
    (sendMessage false "hi" "s1" "default" StreamOutcome.failBeforeBody
        FallbackOutcome.fail jsonParseFlat).appended = [apologyText]
    ∧ (sendMessage false "hi" "s1" "default" StreamOutcome.failBeforeBody
        FallbackOutcome.fail jsonParseFlat).raised = false :=
  both_fail_apology_once false "hi" "s1" "default" StreamOutcome.failBeforeBody
    jsonParseFlat (by decide) (by decide)

/-- C6 counterexample: a stream that raises mid-way after accumulating "abc"
lands in the fallback path; the finalized assistant message is the fallback
reply "z", which does not contain the accumulated content — the partial
content is discarded, contradicting the claim. -/
theorem midstream_failure_discards_partial :
    (runChunks jsonParseFlat initPState chunksC6).acc.content = "abc" ∧
      (sendMessage false "hi" "s1" "default" (StreamOutcome.failMidStream chunksC6)
          (FallbackOutcome.ok (some "z") none none) jsonParseFlat).appended = ["z"] ∧
      ∀ t ∈ (sendMessage false "hi" "s1" "default" (StreamOutcome.failMidStream chunksC6)
          (FallbackOutcome.ok (some "z") none none) jsonParseFlat).appended,
        ¬ ((runChunks jsonParseFlat initPState chunksC6).acc.content.data <:+: t.data) :=
  ⟨by decide, by decide, by decide⟩

/-- C6 amended: an error signalled in-band by an `error` event mid-stream
does not abort the stream and does not change the accumulation state: a frame
sequence with an interleaved error frame (inserted at a frame boundary)
produces exactly the same final state as the sequence without it, so
finalization still uses all accumulated content. A stream that raises an
exception mid-way instead falls back and discards the partial content. -/
theorem error_event_inert (jp : String → Option Payload) (ls1 ls2 : List String)
    (eline dline : String) (pay : Payload)
    (he1 : ¬ jsTrim eline = "") (he2 : jsStartsWith eline ":" = false)
    (he3 : jsStartsWith eline "event:" = true) (he4 : jsTrim (jsSlice eline 6) = "error")
    (hd1 : ¬ jsTrim dline = "") (hd2 : jsStartsWith dline ":" = false)
    (hd3 : jsStartsWith dline "event:" = false) (hd4 : jsStartsWith dline "data:" = true)
    (hd5 : jp (jsTrim (jsSlice dline 5)) = some pay)
    (hstate : (List.foldl (stepLine jp) initAcc ls1).eventType = "message") :
    List.foldl (stepLine jp) initAcc (ls1 ++ eline :: dline :: ls2) =
      List.foldl (stepLine jp) initAcc (ls1 ++ ls2) := by
  suffices h : stepLine jp (stepLine jp (List.foldl (stepLine jp) initAcc ls1) eline) dline
      = List.foldl (stepLine jp) initAcc ls1 by
    rw [List.foldl_append, List.foldl_append, List.foldl_cons, List.foldl_cons, h]
  set s1 := List.foldl (stepLine jp) initAcc ls1 with hs1
  have hE : stepLine jp s1 eline = { s1 with eventType := "error" } := by
    rw [stepLine, if_neg (by simp [he1, he2]), if_pos he3, he4]
  rw [hE]
  have hD : stepLine jp { s1 with eventType := "error" } dline =
      { s1 with eventType := "message" } := by
    rw [stepLine, if_neg (by simp [hd1, hd2]), if_neg (by simp [hd3]), if_pos hd4]
    simp only [hd5]
    rw [dispatchPayload, if_neg (by simp), if_neg (by simp)]
  rw [hD, ← hstate]

/-- Witness for C6 amended: an error frame interleaved between two progress
frames. -/
theorem error_event_inert_witness :
    List.foldl (stepLine jsonParseFlat) initAcc (ls1C6 ++ "event:error" :: dlineC6 :: ls2C6) =
      List.foldl (stepLine jsonParseFlat) initAcc (ls1C6 ++ ls2C6) :=
  error_event_inert jsonParseFlat ls1C6 ls2C6 "event:error" dlineC6 payC6
    (by decide) (by decide) (by decide) (by decide) (by decide)
    (by decide) (by decide) (by decide) (by decide) (by decide)

/-- C7 counterexample: `switchSession` sets the active pointer
unconditionally, so switching to an identifier absent from the collection
leaves the pointer referencing no session, contradicting the claim that the
pointer references a present session after every operation. -/
theorem switch_breaks_pointer_invariant :
    (switchSession storeC7 "ghost").activeId = some "ghost" ∧
      ¬ activeValid (switchSession storeC7 "ghost") := by
  constructor
  · rfl
  · unfold activeValid switchSession storeC7
    decide

/-- C7 amended: the session collection is never empty after any store
operation; deleting the sole remaining session yields exactly the collection
with one newly generated empty session whose id the active pointer equals;
and the active pointer references a present session after every operation,
provided `switchSession` is only invoked with the id of a session present in
the collection (the code sets the pointer unconditionally). -/
theorem store_invariants :
    (∀ (st : SessionStore) (op : StoreOp), st.sessions ≠ [] → (applyOp st op).sessions ≠ [])
    ∧ (∀ (s : Session) (act : Option String) (freshId : String) (now : Int),
        deleteSession { sessions := [s], activeId := act } s.id freshId now =
          { sessions := [createEmptySession freshId now "default"],
            activeId := some (createEmptySession freshId now "default").id })
    ∧ (∀ (st : SessionStore) (op : StoreOp),
        activeValid st → opOk st op → activeValid (applyOp st op)) := by
  refine ⟨?_, ?_, ?_⟩
  · intro st op h
    have hmap : ∀ (f : Session → Session), (mapSessions st f).sessions ≠ [] := by
      intro f hcontra
      exact h (List.map_eq_nil.mp hcontra)
    cases op with
    | create freshId now agentId => simp [applyOp, createSession]
    | switchTo sid => simpa [applyOp, switchSession] using h
    | delete sid freshId now =>
      rw [applyOp, deleteSession]
      split
      · simp
      · split <;> simp
    | updateName sid name now => exact hmap _
    | updateAgent sid agentId now => exact hmap _
    | addMessage sid msg now => exact hmap _
    | setMessages sid msgs now => exact hmap _
    | clearMessages sid now => exact hmap _
  · intro s act freshId now
    rw [deleteSession]
    have hfil : List.filter (fun x => x.id != s.id) [s] = [] := by
      simp [List.filter]
    rw [hfil]
  · intro st op hInv hOk
    have hmapValid : ∀ (f : Session → Session), (∀ x, (f x).id = x.id) →
        activeValid (mapSessions st f) := by
      intro f hf
      rcases hInv with ⟨s, hs, hid⟩
      exact ⟨f s, List.mem_map_of_mem f hs, by rw [hf s]; exact hid⟩
    cases op with
    | create freshId now agentId =>
      exact ⟨createEmptySession freshId now agentId, List.mem_cons_self _ _, rfl⟩
    | switchTo sid =>
      rcases hOk with ⟨s, hs, hid⟩
      exact ⟨s, hs, by simp [applyOp, switchSession, hid]⟩
    | delete sid freshId now =>
      rw [applyOp, deleteSession]
      split
      · exact ⟨createEmptySession freshId now "default", List.mem_cons_self _ _, rfl⟩
      · rename_i f rest hfil
        by_cases hact : st.activeId = some sid
        · rw [if_pos hact]
          exact ⟨f, List.mem_cons_self _ _, rfl⟩
        · rw [if_neg hact]
          rcases hInv with ⟨s, hs, hid⟩
          have hsne : s.id ≠ sid := by
            intro he
            exact hact (by rw [← hid, he])
          have hmem : s ∈ st.sessions.filter (fun x => x.id != sid) :=
            List.mem_filter.mpr ⟨hs, bne_iff_ne.mpr hsne⟩
          rw [hfil] at hmem
          exact ⟨s, hmem, hid⟩
    | updateName sid name now => exact hmapValid _ (fun x => by split <;> rfl)
    | updateAgent sid agentId now => exact hmapValid _ (fun x => by split <;> rfl)
    | addMessage sid msg now => exact hmapValid _ (fun x => by split <;> rfl)
    | setMessages sid msgs now => exact hmapValid _ (fun x => by split <;> rfl)
    | clearMessages sid now => exact hmapValid _ (fun x => by split <;> rfl)

/-- Witness for C7 amended: a delete on a nonempty store and a switch to a
present id. -/
theorem store_invariants_witness :
    (applyOp storeC7 (StoreOp.delete "s0" "s1" 1)).sessions ≠ [] ∧
      activeValid (applyOp storeC7 (StoreOp.switchTo "s0")) :=
  ⟨store_invariants.1 storeC7 (StoreOp.delete "s0" "s1" 1) (by decide),
    store_invariants.2.2 storeC7 (StoreOp.switchTo "s0")
      ⟨createEmptySession "s0" 0 "default", by simp [storeC7], rfl⟩
      ⟨createEmptySession "s0" 0 "default", by simp [storeC7], rfl⟩⟩

theorem map_id_of_mem {f : α → α} : ∀ {l : List α}, (∀ x ∈ l, f x = x) → l.map f = l := by
  intro l
  induction l with
  | nil => intro _; rfl
  | cons a l ih =>
    intro h
    simp only [List.map_cons]
    rw [h a (List.mem_cons_self _ _), ih (fun x hx => h x (List.mem_cons_of_mem _ hx))]

theorem roundtrip_message (toISO : Int → String) (parseISO : String → Int) (m : Message)
    (hm : parseISO (toISO m.timestamp) = m.timestamp) :
    loadMessage parseISO (saveMessage toISO m) = m := by
  cases m with
  | mk id role content ts tc =>
    simp only [loadMessage, saveMessage] at hm ⊢
    simp [hm]

theorem roundtrip_session (toISO : Int → String) (parseISO : String → Int) (s : Session)
    (hs : ∀ d ∈ sessionDates s, parseISO (toISO d) = d) :
    loadSessionJ parseISO (saveSessionJ toISO s) = s := by
  cases s with
  | mk id name ag msgs cr up =>
    have hcr : parseISO (toISO cr) = cr := hs cr (by simp [sessionDates])
    have hup : parseISO (toISO up) = up := hs up (by simp [sessionDates])
    have hmsgs : msgs.map (fun m => loadMessage parseISO (saveMessage toISO m)) = msgs := by
      apply map_id_of_mem
      intro m hm
      refine roundtrip_message toISO parseISO m (hs m.timestamp ?_)
      simp only [sessionDates, List.mem_cons, List.mem_map]
      exact Or.inr (Or.inr ⟨m, hm, rfl⟩)
    simp only [loadSessionJ, saveSessionJ, Option.map_some', Option.getD_some, List.map_map]
    simp only [Session.mk.injEq, hcr, hup]
    simpa [Function.comp] using hmsgs

/-- C9: the save-load round-trip law. For every date codec satisfying the
reconstruction property on the dates occurring in the sessions (as
`new Date(d.toISOString())` does), loading the stored document written by
`saveSessions` yields the original session list field for field, the date
fields being rebuilt from their ISO text. -/
theorem save_load_roundtrip (toISO : Int → String) (parseISO : String → Int)
    (sessions : List Session)
    (h : ∀ s ∈ sessions, ∀ d ∈ sessionDates s, parseISO (toISO d) = d) :
    loadSessions parseISO (some (saveSessions toISO sessions)) = sessions := by
  simp only [loadSessions, saveSessions, List.map_map]
  exact map_id_of_mem (fun s hsmem =>
    roundtrip_session toISO parseISO s (fun d hd => h s hsmem d hd))

/-- Witness for C9 with a concrete session and a concrete codec satisfying
the codec assumption on its dates. -/
theorem save_load_roundtrip_witness :
    loadSessions demoParse (some (saveSessions demoISO [sessionW])) = [sessionW] :=
  save_load_roundtrip demoISO demoParse [sessionW] (by decide)

end NanobotWeb
